import Mathlib

/-!
Verification of the static-site hosting subsystem
(`src/modules/static-sites/index.ts`) against its design document.

The TypeScript source is shallowly embedded: strings are Lean `String`
(operated on through their character lists, matching JavaScript's
behaviour on the ASCII data this subsystem handles), thrown exceptions
are `Except String`, filesystem state and the space registry are passed
explicitly, and byte counters are `Int`/`Nat`.
-/

set_option maxRecDepth 4096

/-! ## JavaScript string primitives -/

/-- Extensionality for `String` via its character data. -/
theorem strExt {a b : String} (h : a.data = b.data) : a = b := by
  cases a; cases b; exact congrArg String.mk h

/-- `(s ++ t).data = s.data ++ t.data`. -/
theorem strDataAppend (s t : String) : (s ++ t).data = s.data ++ t.data := rfl

/-- Associativity of `String` append. -/
theorem strAppendAssoc (a b c : String) : a ++ b ++ c = a ++ (b ++ c) := by
  apply strExt
  simp [strDataAppend, List.append_assoc]

/-- Models JS `String.prototype.startsWith`. -/
def jsStartsWith (s pre : String) : Bool :=
  pre.data.isPrefixOf s.data

/-- Models JS `String.prototype.endsWith`. -/
def jsEndsWith (s suf : String) : Bool :=
  suf.data.isSuffixOf s.data

/-- Boolean substring containment on character lists. -/
def containsSub (sub : List Char) : List Char → Bool
  | [] => sub.isPrefixOf []
  | c :: rest => sub.isPrefixOf (c :: rest) || containsSub sub rest

/-- Models JS `String.prototype.includes` (substring containment). -/
def jsIncludes (s sub : String) : Bool :=
  containsSub sub.data s.data

/-- Models JS `String.prototype.slice(n)` for code-unit index `n`
(identical to character index on ASCII data). -/
def jsSlice (s : String) (n : Nat) : String :=
  ⟨s.data.drop n⟩

/-- Models JS `String.prototype.trim` (ASCII whitespace). -/
def jsTrim (s : String) : String :=
  ⟨(s.data.dropWhile Char.isWhitespace).reverse.dropWhile Char.isWhitespace |>.reverse⟩

/-- Models JS `String.prototype.toLowerCase` (ASCII case folding). -/
def jsToLower (s : String) : String :=
  ⟨s.data.map Char.toLower⟩

/-- Splitting on a single separator character, keeping empty parts,
as JS `String.prototype.split` does for a one-character separator. -/
def splitChars (sep : Char) : List Char → List (List Char)
  | [] => [[]]
  | c :: rest =>
    match splitChars sep rest with
    | [] => [[]]
    | g :: gs => if c = sep then [] :: g :: gs else (c :: g) :: gs

/-- Models JS `String.prototype.split` with a one-character separator. -/
def jsSplit (s : String) (sep : Char) : List String :=
  (splitChars sep s.data).map (fun l => ⟨l⟩)

/-- A list is a (Boolean) prefix of itself followed by anything. -/
theorem isPrefixOf_append_self (l t : List Char) : l.isPrefixOf (l ++ t) = true := by
  induction l with
  | nil => simp
  | cons c r ih => simp [List.isPrefixOf_cons₂, ih]

/-- Extract the append decomposition from a Boolean prefix test. -/
theorem eq_append_of_isPrefixOf {l m : List Char} (h : l.isPrefixOf m = true) :
    m = l ++ m.drop l.length := by
  induction l generalizing m with
  | nil => simp
  | cons c r ih =>
    cases m with
    | nil => simp [List.isPrefixOf] at h
    | cons d ms =>
      simp only [List.isPrefixOf, Bool.and_eq_true, beq_iff_eq] at h
      obtain ⟨hc, hr⟩ := h
      simpa [hc] using congrArg (List.cons d) (ih hr)

/-! ## Domain patterns (source: `normalizeDomain`, `parseDomain`,
`wildcardIntersects`, `domainIntersects`, `matchesDomain`, `stripPort`) -/

/-- Result of `parseDomain`. -/
structure ParsedDomain where
  domain : String
  wildcard : Bool
  base : String
  deriving Repr, DecidableEq

/-- `normalizeDomain`: trim and lowercase. -/
def normalizeDomain (input : String) : String :=
  jsToLower (jsTrim input)

/-- `parseDomain`: normalize, reject empty / slash / malformed wildcard. -/
def parseDomain (input : String) : Except String ParsedDomain :=
  let domain := normalizeDomain input
  if domain = "" then .error "域名不能为空"
  else if jsIncludes domain "/" then .error "域名格式不合法"
  else if jsStartsWith domain "*." then
    let base := jsSlice domain 2
    if base = "" ∨ jsIncludes base "*" then .error "通配符域名格式不合法"
    else .ok ⟨domain, true, base⟩
  else if jsIncludes domain "*" then .error "仅支持 *.example.com 形式的通配符"
  else .ok ⟨domain, false, domain⟩

/-- `wildcardIntersects`: bases equal or one a dot-suffix of the other. -/
def wildcardIntersects (baseA baseB : String) : Bool :=
  if baseA = baseB then true
  else if jsEndsWith baseA ("." ++ baseB) then true
  else if jsEndsWith baseB ("." ++ baseA) then true
  else false

/-- `domainIntersects`: parse both patterns, then case on wildcard flags. -/
def domainIntersects (a b : String) : Except String Bool := do
  let pa ← parseDomain a
  let pb ← parseDomain b
  if !pa.wildcard && !pb.wildcard then
    return pa.base = pb.base
  else if pa.wildcard && pb.wildcard then
    return wildcardIntersects pa.base pb.base
  else
    let w := if pa.wildcard then pa else pb
    let e := if pa.wildcard then pb else pa
    if e.base = w.base then return false
    else return jsEndsWith e.base ("." ++ w.base)

/-- `matchesDomain`: exact pattern matches iff equal to its base;
wildcard matches iff host differs from the base and ends with `.base`. -/
def matchesDomain (host domain : String) : Except String Bool := do
  let parsed ← parseDomain domain
  if !parsed.wildcard then
    return host = parsed.base
  else if host = parsed.base then
    return false
  else
    return jsEndsWith host ("." ++ parsed.base)

/-- `stripPort`: drop everything from the first `:` and lowercase. -/
def stripPort (host : String) : String :=
  jsToLower ((jsSplit host ':').headD "")

/-! ## Quota enforcement (source: `ensureWithinLimits`) -/

/-- `ensureWithinLimits`, with the two configured ceilings passed
explicitly (`config.staticSites.maxSpaceBytes` / `maxTotalBytes`). -/
def ensureWithinLimits (maxSpace maxTotal : Int)
    (sizeDelta spaceUsed userUsed : Int) : Except String Unit :=
  if spaceUsed + sizeDelta > maxSpace then .error "空间容量不足"
  else if userUsed + sizeDelta > maxTotal then .error "总容量不足"
  else .ok ()

deriving instance DecidableEq for Except

/-! ## Path sandbox (source: `safeResolve`, `ensureSafeArchivePath`)

An absolute POSIX path is represented by its list of segments; `render`
produces the path string Node would hold. The space root passed to
`safeResolve` is the canonical absolute root directory of the space
(`path.resolve(config.staticSites.rootDir, spaceId)`), given here as its
segment list. -/

/-- String form of an absolute path from its segments. -/
def renderSegs : List String → String
  | [] => ""
  | [s] => s
  | s :: t :: rest => s ++ "/" ++ renderSegs (t :: rest)

/-- Render an absolute path. -/
def render (segs : List String) : String :=
  "/" ++ renderSegs segs

/-- One step of Node `path.resolve` segment processing: empty and `.`
segments are skipped, `..` pops (staying put at the filesystem root). -/
def resolveStep (acc : List String) (seg : String) : List String :=
  if seg = "" ∨ seg = "." then acc
  else if seg = ".." then acc.dropLast
  else acc ++ [seg]

/-- `path.resolve(root, rel)` for a relative `rel`, on segment lists. -/
def resolveRel (root : List String) (rel : String) : List String :=
  (jsSplit rel '/').foldl resolveStep root

/-- `requestPath.replace(/\\/g, '/').replace(/^\/+/, '')`. -/
def normalizePath (p : String) : String :=
  ⟨(p.data.map (fun c => if c = '\\' then '/' else c)).dropWhile (fun c => c = '/')⟩

/-- `safeResolve`: normalize separators, strip leading slashes, resolve
against the root, and require the result to start with the root string. -/
def safeResolve (root : List String) (requestPath : String) : Except String String :=
  let target := render (resolveRel root (normalizePath requestPath))
  if jsStartsWith target (render root) then .ok target else .error "非法路径"

/-- `ensureSafeArchivePath`: reject absolute entry paths and any path
containing the substring `..`. -/
def ensureSafeArchivePath (entryPath : String) : Except String String :=
  let normalized : String := ⟨entryPath.data.map (fun c => if c = '\\' then '/' else c)⟩
  if jsStartsWith normalized "/" || jsIncludes normalized ".." then
    .error "压缩包内包含非法路径"
  else .ok normalized

/-- `path.posix.join` as used here: concatenation with a slash; the
`.`/`..`/empty-segment normalization that `join` would perform is
performed downstream by `resolveRel` inside `safeResolve`, which treats
the concatenated segment stream identically. -/
def posixJoin (a b : String) : String :=
  if a = "" then b else a ++ "/" ++ b

/-! ## Upload pipeline (source: `streamToFileWithLimit` and the
`/upload` route's busboy handlers)

A chunk is modelled by its byte length. The `onProgress` callback is the
quota check the upload route installs; when it throws, `abort` destroys
both streams before the pipe handler writes the offending chunk, so the
bytes persisted on disk are those of the chunks already written. -/

/-- Outcome of streaming chunks through the write stream:
(bytes persisted at the target, final `total` counter, error if any). -/
def streamChunks (check : Nat → Except String Unit) :
    List Nat → Nat → Nat → Nat × Nat × Option String
  | [], written, total => (written, total, none)
  | c :: rest, written, total =>
    let total' := total + c
    match check total' with
    | .error m => (written, total', some m)
    | .ok _ => streamChunks check rest (written + c) total'

/-- `streamToFileWithLimit`: the write stream is created (truncating any
previous file), then chunks flow until done or aborted. -/
def streamToFileWithLimit (check : Nat → Except String Unit)
    (chunks : List Nat) : Nat × Nat × Option String :=
  streamChunks check chunks 0 0

/-- Observable outcome of the upload route: the HTTP-level result, the
bytes present at the target path afterwards (`none` = no file), and the
usage value written to the registry (`none` = no write). -/
structure UploadOutcome where
  response : Except String Unit
  fileAt : Option Nat
  usageWrite : Option Int
  deriving Repr, DecidableEq

/-- The `/upload` route for a single file part with a valid filename:
stream with the incremental quota check baselined at `oldSize`; on
error, `writtenFile` was never assigned (it is only set after a fully
successful stream), so the partial file is not removed; on success,
usage becomes `max 0 (usedBytes + (uploadedBytes - oldSize))`. -/
def uploadFlow (maxSpace maxTotal spaceUsed userUsed : Int)
    (oldSize : Nat) (chunks : List Nat) : UploadOutcome :=
  let check := fun (t : Nat) =>
    ensureWithinLimits maxSpace maxTotal ((t : Int) - (oldSize : Int)) spaceUsed userUsed
  match streamToFileWithLimit check chunks with
  | (written, _, some m) =>
    { response := .error m, fileAt := some written, usageWrite := none }
  | (_, total, none) =>
    let delta : Int := (total : Int) - (oldSize : Int)
    { response := .ok (), fileAt := some total,
      usageWrite := some (max 0 (spaceUsed + delta)) }

/-! ## Task registry (source: `tasks` map, `createTask`, `updateTask`)

`updatedAt` (wall-clock time) is not modelled. `Object.assign(task,
patch)` overwrites exactly the fields present in the patch. -/

/-- Task status. -/
inductive TStatus
  | running
  | done
  | failed
  deriving Repr, DecidableEq

/-- A task record (progress is a number or `null`). -/
structure STask where
  status : TStatus
  progress : Option Int
  message : Option String
  deriving Repr, DecidableEq

/-- A patch as passed to `updateTask`: each field is present or absent. -/
structure TaskPatch where
  status : Option TStatus
  progress : Option (Option Int)
  message : Option String
  deriving Repr, DecidableEq

/-- `updateTask` on a task known to exist: `Object.assign` semantics,
with no guard on the current status. -/
def updateTask (t : STask) (p : TaskPatch) : STask :=
  { status := p.status.getD t.status
    progress := p.progress.getD t.progress
    message := (p.message.map some).getD t.message }

/-- The updates the zip/unzip background operations feed `updateTask`:
progress callbacks, the archiver error handler, the completion update,
and the catch-all failure handler. -/
inductive TaskEvent
  | progressEv (pct : Int)
  | archiveError (msg : String)
  | complete
  | catchFailed (msg : String)
  deriving Repr, DecidableEq

/-- The patch each handler passes to `updateTask` (from the source of
the zip and unzip background tasks). -/
def eventPatch : TaskEvent → TaskPatch
  | .progressEv n => ⟨none, some (some n), none⟩
  | .archiveError m => ⟨some .failed, none, some m⟩
  | .complete => ⟨some .done, some (some 100), none⟩
  | .catchFailed m => ⟨some .failed, none, some m⟩

/-- One handler-driven task update. -/
def taskStep (t : STask) (e : TaskEvent) : STask :=
  updateTask t (eventPatch e)

/-- `createTask` produces a running task with progress 0. -/
def createTask : STask :=
  { status := .running, progress := some 0, message := none }

/-! ## Unzip background task (source: the `/unzip` route's detached
async block)

The filesystem is a map from absolute path strings to nodes; the
archive is the entry list `unzipper.Open` reports. -/

/-- A filesystem node: regular file with size, or directory. -/
inductive FsNode
  | file (size : Nat)
  | dir
  deriving Repr, DecidableEq

/-- Entry type reported by unzipper. -/
inductive EntryType
  | File
  | Directory
  deriving Repr, DecidableEq

/-- An archive entry. -/
structure ZipEntry where
  path : String
  etype : EntryType
  uncompressedSize : Nat
  deriving Repr, DecidableEq

/-- Pre-scan loop: accumulate total uncompressed size over `File`
entries and the size of regular files already present at each entry's
destination. Non-`File` entries are skipped before any path check. -/
def prescan (root : List String) (targetDir : String) (fs : String → Option FsNode) :
    List ZipEntry → Nat → Nat → Except String (Nat × Nat)
  | [], t, e => .ok (t, e)
  | entry :: rest, t, e =>
    if entry.etype ≠ .File then prescan root targetDir fs rest t e
    else
      let t' := t + entry.uncompressedSize
      match ensureSafeArchivePath entry.path with
      | .error m => .error m
      | .ok ep =>
        match safeResolve root (posixJoin targetDir ep) with
        | .error m => .error m
        | .ok target =>
          let e' := match fs target with
            | some (.file sz) => e + sz
            | _ => e
          prescan root targetDir fs rest t' e'

/-- Extraction loop: validate each entry's path, then create the
directory or write the file; returns the destination paths written so
far together with the first error, if any (partial writes persist). -/
def extractEntries (root : List String) (targetDir : String) :
    List ZipEntry → List String → List String × Option String
  | [], written => (written, none)
  | entry :: rest, written =>
    match ensureSafeArchivePath entry.path with
    | .error m => (written, some m)
    | .ok ep =>
      match safeResolve root (posixJoin targetDir ep) with
      | .error m => (written, some m)
      | .ok target => extractEntries root targetDir rest (written ++ [target])

/-- Observable outcome of the unzip background task: terminal task
status, paths written on disk, and the usage value written to the
registry (`none` = usage untouched). -/
structure UnzipResult where
  status : TStatus
  written : List String
  usage : Option Int
  deriving Repr, DecidableEq

/-- The unzip background task: pre-scan, one quota check on the net
delta, then extraction, then the usage update `usedBytes + delta`. -/
def unzipTask (maxSpace maxTotal : Int) (root : List String) (targetDir : String)
    (fs : String → Option FsNode) (usedBytes userUsed : Int)
    (entries : List ZipEntry) : UnzipResult :=
  match prescan root targetDir fs entries 0 0 with
  | .error _ => ⟨.failed, [], none⟩
  | .ok (totalSize, existingSize) =>
    let delta : Int := (totalSize : Int) - (existingSize : Int)
    match ensureWithinLimits maxSpace maxTotal delta usedBytes userUsed with
    | .error _ => ⟨.failed, [], none⟩
    | .ok _ =>
      match extractEntries root targetDir entries [] with
      | (written, some _) => ⟨.failed, written, none⟩
      | (written, none) => ⟨.done, written, some (usedBytes + delta)⟩

/-! ## Space registry and domain-binding cache (source: `refreshBindings`,
the dashboard routes; the registry CRUD lives in the persistence layer,
outside this module) -/

/-- A derived domain binding. -/
structure DomainBinding where
  spaceId : String
  owner : String
  domain : String
  deriving Repr, DecidableEq

/-- A space record as stored in the Space Registry.
Modelled from the spec: the persistence layer (`createStaticSpace`,
`deleteStaticSpace`, `updateStaticSpaceDomains`, `listAllStaticSpaces`)
is not part of this module's source; per the spec a space carries an
opaque id, an owner, a display name, bound domain patterns and a
recorded used-bytes counter. -/
structure SpaceRec where
  id : String
  owner : String
  name : String
  domains : List String
  usedBytes : Int
  deriving Repr, DecidableEq

/-- The process state the routes manipulate: the durable registry and
the in-memory domain-binding cache snapshot. -/
structure World where
  registry : List SpaceRec
  cache : Option (List DomainBinding)
  deriving Repr, DecidableEq

/-- Flatten the registry into bindings (spaces outer, domains inner). -/
def deriveBindings (reg : List SpaceRec) : List DomainBinding :=
  reg.foldr (fun s acc => s.domains.map (fun d => ⟨s.id, s.owner, d⟩) ++ acc) []

/-- `refreshBindings`: rebuild the cache snapshot from the registry. -/
def refreshBindings (w : World) : World :=
  { w with cache := some (deriveBindings w.registry) }

/-- `ensureValidSpaceName`. -/
def ensureValidSpaceName (name : String) : Except String String :=
  let value := jsTrim name
  if value = "" then .error "空间名称不能为空"
  else if value.length > 64 then .error "空间名称过长"
  else .ok value

/-- `Array.from(new Set(l))`: deduplicate keeping first occurrences. -/
def dedupKeepFirst (l : List String) : List String :=
  l.foldl (fun acc x => if x ∈ acc then acc else acc ++ [x]) []

/-- Reserved-host loop of the domains route. -/
def checkReserved (domain : String) : List String → Except String Unit
  | [] => .ok ()
  | r :: rest => do
    let hit ← domainIntersects domain r
    if hit then .error "域名不可与系统域名冲突" else checkReserved domain rest

/-- Inner loop over one other space's domains. -/
def checkDomainList (domain : String) : List String → Except String Unit
  | [] => .ok ()
  | d :: rest => do
    let hit ← domainIntersects domain d
    if hit then .error "域名已被占用或与通配符冲突" else checkDomainList domain rest

/-- Outer loop over all other spaces (skipping the target space). -/
def checkOtherSpaces (domain spaceId : String) : List SpaceRec → Except String Unit
  | [] => .ok ()
  | s :: rest =>
    if s.id = spaceId then checkOtherSpaces domain spaceId rest
    else do
      checkDomainList domain s.domains
      checkOtherSpaces domain spaceId rest

/-- The domains POST route's validation and resulting domain list for
the target space (registry write and cache refresh modelled in
`bindDomainRoute`). -/
def bindDomain (reserved : List String) (spaces : List SpaceRec)
    (spaceId : String) (spaceDomains : List String) (input : String) :
    Except String (List String) := do
  let parsed ← parseDomain input
  let domain := parsed.domain
  checkReserved domain reserved
  checkOtherSpaces domain spaceId spaces
  .ok (dedupKeepFirst (spaceDomains ++ [domain]))

/-- Replace one space's domain list in the registry.
Modelled from the spec: `updateStaticSpaceDomains(spaceId, domains)`
updates the identified space's domain-pattern set. -/
def setDomains (reg : List SpaceRec) (spaceId : String) (domains : List String) :
    List SpaceRec :=
  reg.map (fun s => if s.id = spaceId then { s with domains := domains } else s)

/-- The spaces POST route (space creation), up to the JSON response.
`newId` stands for the id the persistence layer generates; per the spec
a fresh space has no domains and zero recorded usage. -/
def createSpaceRoute (maxSpacesPerUser : Nat) (owner rawName newId : String)
    (w : World) : Except String World := do
  let name ← ensureValidSpaceName rawName
  let owned := w.registry.filter (fun s => s.owner = owner)
  if owned.length ≥ maxSpacesPerUser then .error "已达到空间数量上限"
  else
    let w' := { w with registry := w.registry ++ [⟨newId, owner, name, [], 0⟩] }
    .ok (refreshBindings w')

/-- The space DELETE route.
Modelled from the spec where it touches the persistence layer:
`deleteStaticSpace(spaceId, owner)` removes the identified space. -/
def deleteSpaceRoute (owner spaceId : String) (w : World) : Except String World :=
  match w.registry.find? (fun s => s.id = spaceId && s.owner = owner) with
  | none => .error "空间不存在"
  | some _ =>
    let w' := { w with
      registry := w.registry.filter (fun s => !(s.id = spaceId && s.owner = owner)) }
    .ok (refreshBindings w')

/-- The domains POST route (bind), through registry write and refresh. -/
def bindDomainRoute (reserved : List String) (owner spaceId input : String)
    (w : World) : Except String World :=
  match w.registry.find? (fun s => s.id = spaceId && s.owner = owner) with
  | none => .error "空间不存在"
  | some space => do
    let updated ← bindDomain reserved w.registry spaceId space.domains input
    let w' := { w with registry := setDomains w.registry spaceId updated }
    .ok (refreshBindings w')

/-- The domains DELETE route (unbind): parse, reserved-host check (the
check precedes the method branch in the source), filter out the domain,
write, refresh. -/
def unbindDomainRoute (reserved : List String) (owner spaceId input : String)
    (w : World) : Except String World :=
  match w.registry.find? (fun s => s.id = spaceId && s.owner = owner) with
  | none => .error "空间不存在"
  | some space => do
    let parsed ← parseDomain input
    let domain := parsed.domain
    checkReserved domain reserved
    let updated := space.domains.filter (fun d => d ≠ domain)
    let w' := { w with registry := setDomains w.registry spaceId updated }
    .ok (refreshBindings w')

/-! ## Host resolution (source: `resolveSpaceByHost`) -/

/-- Best-match scan state: score of the current best (`-1` if none). -/
def scoreOf : Option DomainBinding → Int
  | none => -1
  | some b => b.domain.length

/-- The scan loop of `resolveSpaceByHost` over the cached bindings. -/
def resolveGo (host : String) : List DomainBinding → Option DomainBinding → Int →
    Except String (Option DomainBinding)
  | [], best, _ => .ok best
  | b :: rest, best, bestScore =>
    match matchesDomain host b.domain with
    | .error m => .error m
    | .ok true =>
      if (b.domain.length : Int) > bestScore then
        resolveGo host rest (some b) (b.domain.length : Int)
      else resolveGo host rest best bestScore
    | .ok false => resolveGo host rest best bestScore

/-- `resolveSpaceByHost` on a given binding snapshot. -/
def resolveSpaceByHost (host : String) (bindings : List DomainBinding) :
    Except String (Option DomainBinding) :=
  resolveGo host bindings none (-1)

/-! ## Helper lemmas -/

/-- Shape of a successful `parseDomain` result: the stored pattern is
the normalized input; an exact pattern's base is the pattern itself; a
wildcard pattern is exactly `*.` followed by its base. -/
theorem parseDomain_shape {input : String} {pd : ParsedDomain}
    (h : parseDomain input = .ok pd) :
    pd.domain = normalizeDomain input ∧
    (pd.wildcard = false → pd.base = pd.domain) ∧
    (pd.wildcard = true → pd.domain = "*." ++ pd.base) := by
  simp only [parseDomain] at h
  split at h
  · exact absurd h (by simp)
  · split at h
    · exact absurd h (by simp)
    · split at h
      · split at h
        · exact absurd h (by simp)
        · rename_i hstart _
          cases h
          refine ⟨rfl, by simp, fun _ => ?_⟩
          have h2 := eq_append_of_isPrefixOf hstart
          apply strExt
          rw [strDataAppend]
          exact h2
      · split at h
        · exact absurd h (by simp)
        · cases h
          exact ⟨rfl, fun _ => rfl, by simp⟩

/-- Evaluate `matchesDomain` once the pattern parse is known. -/
theorem matchesDomain_ok (host : String) {domain : String} {pd : ParsedDomain}
    (h : parseDomain domain = .ok pd) :
    matchesDomain host domain =
      .ok (if !pd.wildcard then decide (host = pd.base)
           else if host = pd.base then false
           else jsEndsWith host ("." ++ pd.base)) := by
  unfold matchesDomain
  rw [h]
  show (if !pd.wildcard then Except.ok (decide (host = pd.base))
        else if host = pd.base then Except.ok false
        else Except.ok (jsEndsWith host ("." ++ pd.base))) = _
  split
  · rfl
  · split <;> rfl

/-! ## Claim theorems -/

/-- C5 counterexample: the claim asserts that the quota check succeeds
for every negative delta; with space ceiling 100 it rejects the
negative delta `-1` when current space usage is already 200. -/
theorem c5_counterexample :
    (-1 : Int) < 0 ∧
    ensureWithinLimits 100 1000 (-1) 200 0 = .error "空间容量不足" := by
  constructor
  · decide
  · rfl

/-- C5 (amended): `ensureWithinLimits` succeeds exactly when
`spaceUsed + delta` is within the space ceiling and `userUsed + delta`
is within the owner ceiling; every negative delta succeeds provided the
current usages are themselves within their ceilings; with space ceiling
100 and usage 90, delta 20 fails and delta 10 succeeds. -/
theorem c5_theorem :
    (∀ maxSpace maxTotal sizeDelta spaceUsed userUsed : Int,
      ensureWithinLimits maxSpace maxTotal sizeDelta spaceUsed userUsed = .ok () ↔
        (spaceUsed + sizeDelta ≤ maxSpace ∧ userUsed + sizeDelta ≤ maxTotal)) ∧
    (∀ maxSpace maxTotal sizeDelta spaceUsed userUsed : Int,
      sizeDelta < 0 → spaceUsed ≤ maxSpace → userUsed ≤ maxTotal →
      ensureWithinLimits maxSpace maxTotal sizeDelta spaceUsed userUsed = .ok ()) ∧
    (∀ maxTotal userUsed : Int, userUsed + 20 ≤ maxTotal →
      ensureWithinLimits 100 maxTotal 20 90 userUsed = .error "空间容量不足") ∧
    (∀ maxTotal userUsed : Int, userUsed + 10 ≤ maxTotal →
      ensureWithinLimits 100 maxTotal 10 90 userUsed = .ok ()) := by
  have key : ∀ maxSpace maxTotal sizeDelta spaceUsed userUsed : Int,
      ensureWithinLimits maxSpace maxTotal sizeDelta spaceUsed userUsed = .ok () ↔
        (spaceUsed + sizeDelta ≤ maxSpace ∧ userUsed + sizeDelta ≤ maxTotal) := by
    intro maxSpace maxTotal sizeDelta spaceUsed userUsed
    unfold ensureWithinLimits
    split
    · rename_i h1
      simp only [reduceCtorEq, false_iff]
      omega
    · split
      · rename_i h1 h2
        simp only [reduceCtorEq, false_iff]
        omega
      · rename_i h1 h2
        simp only [true_iff]
        omega
  refine ⟨key, ?_, ?_, ?_⟩
  · intro maxSpace maxTotal sizeDelta spaceUsed userUsed hneg hs hu
    exact (key maxSpace maxTotal sizeDelta spaceUsed userUsed).mpr (by omega)
  · intro maxTotal userUsed h
    unfold ensureWithinLimits
    split
    · rfl
    · rename_i h1
      omega
  · intro maxTotal userUsed h
    exact (key 100 maxTotal 10 90 userUsed).mpr (by omega)

/-- C5 witness: the amended theorem applied at concrete inputs. -/
theorem c5_witness :
    ensureWithinLimits 100 1000 (-5) 50 50 = .ok () ∧
    ensureWithinLimits 100 1000 20 90 0 = .error "空间容量不足" ∧
    ensureWithinLimits 100 1000 10 90 0 = .ok () :=
  ⟨c5_theorem.2.1 100 1000 (-5) 50 50 (by decide) (by decide) (by decide),
   c5_theorem.2.2.1 1000 0 (by decide),
   c5_theorem.2.2.2 1000 0 (by decide)⟩

/-- C7: for every host and every stored pattern (patterns in the
registry are normalized by `parseDomain` at bind time, so a pattern
equals its own normalization), an exact pattern matches iff the host
equals the pattern, and a wildcard pattern `*.base` matches iff the
host differs from `base` and ends with `.base`; in particular
`matchesDomain("a.b.example.com", "*.example.com")` is true and
`matchesDomain("example.com", "*.example.com")` is false. -/
theorem c7_theorem :
    (∀ host p pd, normalizeDomain p = p → parseDomain p = .ok pd →
      (pd.wildcard = false →
        matchesDomain host p = .ok (decide (host = p))) ∧
      (pd.wildcard = true →
        p = "*." ++ pd.base ∧
        matchesDomain host p =
          .ok (decide (host ≠ pd.base) && jsEndsWith host ("." ++ pd.base)))) ∧
    matchesDomain "a.b.example.com" "*.example.com" = .ok true ∧
    matchesDomain "example.com" "*.example.com" = .ok false := by
  refine ⟨?_, by decide, by decide⟩
  intro host p pd hnorm hparse
  obtain ⟨hdom, hexact, hwild⟩ := parseDomain_shape hparse
  rw [hnorm] at hdom
  have heval := matchesDomain_ok host hparse
  constructor
  · intro hw
    rw [heval, hw]
    have hb : pd.base = p := (hexact hw).trans hdom
    simp [hb]
  · intro hw
    refine ⟨hdom ▸ hwild hw, ?_⟩
    rw [heval, hw]
    by_cases hb : host = pd.base
    · simp [hb]
    · simp [hb]

/-- C7 witness: the theorem applied to a concrete wildcard pattern. -/
theorem c7_witness :
    "*.example.com" = "*." ++ "example.com" ∧
    matchesDomain "x.example.com" "*.example.com" =
      .ok (decide ("x.example.com" ≠ "example.com") &&
           jsEndsWith "x.example.com" ("." ++ "example.com")) :=
  (c7_theorem.1 "x.example.com" "*.example.com"
    ⟨"*.example.com", true, "example.com"⟩ (by decide) (by decide)).2 rfl

/-- Reducing a bind on a successful `Except`. -/
theorem exceptOkBind {ε α β : Type} (a : α) (f : α → Except ε β) :
    ((Except.ok a : Except ε α) >>= f) = f a := rfl

/-- `pure` on `Except` is `Except.ok`. -/
theorem exceptPureOk {ε α : Type} (a : α) :
    (pure a : Except ε α) = Except.ok a := rfl

/-- `wildcardIntersects` as a disjunction. -/
theorem wildcardIntersects_eq (x y : String) :
    wildcardIntersects x y =
      (decide (x = y) || jsEndsWith x ("." ++ y) || jsEndsWith y ("." ++ x)) := by
  unfold wildcardIntersects
  by_cases h1 : x = y
  · simp [h1]
  · by_cases h2 : jsEndsWith x ("." ++ y) <;>
      by_cases h3 : jsEndsWith y ("." ++ x) <;> simp [h1, h2, h3]

/-- The spec's definition of pattern intersection (data model section),
stated on parsed patterns for comparison with `domainIntersects`: both
exact → the patterns are equal; both wildcard → their bases are equal
or one base is a dot-suffix of the other; one exact one wildcard → the
exact host is a strict dot-suffix of the wildcard's base (the apex
never intersects its own wildcard). -/
def specIntersects (pa pb : ParsedDomain) : Bool :=
  if pa.wildcard = false ∧ pb.wildcard = false then decide (pa.domain = pb.domain)
  else if pa.wildcard = true ∧ pb.wildcard = true then
    decide (pa.base = pb.base) || jsEndsWith pa.base ("." ++ pb.base) ||
      jsEndsWith pb.base ("." ++ pa.base)
  else
    decide ((if pa.wildcard then pb else pa).domain ≠ (if pa.wildcard then pa else pb).base) &&
      jsEndsWith (if pa.wildcard then pb else pa).domain
        ("." ++ (if pa.wildcard then pa else pb).base)

/-- The inner loop of the domains POST route cannot succeed when some
listed pattern intersects the candidate. -/
theorem checkDomainList_ne_ok {d od : String} {doms : List String}
    (hmem : od ∈ doms) (hint : domainIntersects d od = .ok true) :
    checkDomainList d doms ≠ .ok () := by
  induction doms with
  | nil => cases hmem
  | cons hd tl ih =>
    unfold checkDomainList
    cases hres : domainIntersects d hd with
    | error m => intro hcontra; cases hcontra
    | ok hit =>
      cases hit with
      | true => intro hcontra; cases hcontra
      | false =>
        show checkDomainList d tl ≠ Except.ok ()
        rcases List.mem_cons.mp hmem with heq | htl
        · subst heq
          rw [hint] at hres
          cases hres
        · exact ih htl

/-- The outer loop over other spaces cannot succeed when some different
space holds an intersecting pattern. -/
theorem checkOtherSpaces_ne_ok {d spaceId od : String} {s : SpaceRec}
    {spaces : List SpaceRec}
    (hmem : s ∈ spaces) (hid : s.id ≠ spaceId) (hod : od ∈ s.domains)
    (hint : domainIntersects d od = .ok true) :
    checkOtherSpaces d spaceId spaces ≠ .ok () := by
  induction spaces with
  | nil => cases hmem
  | cons s0 rest ih =>
    unfold checkOtherSpaces
    by_cases h0 : s0.id = spaceId
    · simp only [h0, if_true]
      rcases List.mem_cons.mp hmem with heq | htl
      · exact absurd (heq ▸ h0) hid
      · exact ih htl
    · simp only [h0, if_false]
      cases hlist : checkDomainList d s0.domains with
      | error m => intro hcontra; cases hcontra
      | ok u =>
        cases u
        show checkOtherSpaces d spaceId rest ≠ Except.ok ()
        rcases List.mem_cons.mp hmem with heq | htl
        · subst heq
          exact absurd hlist (checkDomainList_ne_ok hod hint)
        · exact ih htl

/-- C6: `domainIntersects` agrees with the spec's intersection relation
on every pair of parseable patterns; the domains POST route fails
whenever the new pattern intersects a pattern held by a different
space; with `*.example.com` bound to S1, binding `foo.example.com` to
S2 fails while binding `example.com` to S2 succeeds. -/
theorem c6_theorem :
    (∀ a b pa pb, parseDomain a = .ok pa → parseDomain b = .ok pb →
      domainIntersects a b = .ok (specIntersects pa pb)) ∧
    (∀ reserved spaces spaceId sd input p, parseDomain input = .ok p →
      (∃ s ∈ spaces, s.id ≠ spaceId ∧ ∃ od ∈ s.domains,
        domainIntersects p.domain od = .ok true) →
      (bindDomain reserved spaces spaceId sd input).isOk = false) ∧
    (bindDomain [] [⟨"S1", "owner1", "site", ["*.example.com"], 0⟩]
      "S2" [] "foo.example.com").isOk = false ∧
    bindDomain [] [⟨"S1", "owner1", "site", ["*.example.com"], 0⟩]
      "S2" [] "example.com" = .ok ["example.com"] := by
  refine ⟨?_, ?_, by decide, by decide⟩
  · intro a b pa pb ha hb
    obtain ⟨-, haex, -⟩ := parseDomain_shape ha
    obtain ⟨-, hbex, -⟩ := parseDomain_shape hb
    simp only [domainIntersects, ha, hb, exceptOkBind]
    by_cases wa : pa.wildcard <;> by_cases wb : pb.wildcard
    · simp [specIntersects, wa, wb, wildcardIntersects_eq, exceptPureOk]
    · simp only [Bool.not_eq_true] at wb
      have hbb := hbex wb
      by_cases heq : pb.domain = pa.base <;>
        simp [specIntersects, wa, wb, hbb, heq, exceptPureOk]
    · simp only [Bool.not_eq_true] at wa
      have hab := haex wa
      by_cases heq : pa.domain = pb.base <;>
        simp [specIntersects, wa, wb, hab, heq, exceptPureOk]
    · simp only [Bool.not_eq_true] at wa wb
      simp [specIntersects, wa, wb, haex wa, hbex wb, exceptPureOk]
  · intro reserved spaces spaceId sd input p hparse hex
    obtain ⟨s, hs, hid, od, hod, hint⟩ := hex
    simp only [bindDomain, hparse, exceptOkBind]
    cases hres : checkReserved p.domain reserved with
    | error m => rfl
    | ok u =>
      cases u
      cases hoth : checkOtherSpaces p.domain spaceId spaces with
      | error m => rfl
      | ok u =>
        cases u
        exact absurd hoth (checkOtherSpaces_ne_ok hs hid hod hint)

/-- C6 witness: the theorem applied to concrete patterns and spaces. -/
theorem c6_witness :
    domainIntersects "foo.example.com" "*.example.com" =
      .ok (specIntersects ⟨"foo.example.com", false, "foo.example.com"⟩
        ⟨"*.example.com", true, "example.com"⟩) ∧
    (bindDomain [] [⟨"S1", "owner1", "site", ["*.other.net"], 0⟩]
      "S2" [] "a.other.net").isOk = false :=
  ⟨c6_theorem.1 "foo.example.com" "*.example.com"
      ⟨"foo.example.com", false, "foo.example.com"⟩
      ⟨"*.example.com", true, "example.com"⟩ (by decide) (by decide),
   c6_theorem.2.1 [] [⟨"S1", "owner1", "site", ["*.other.net"], 0⟩]
      "S2" [] "a.other.net" ⟨"a.other.net", false, "a.other.net"⟩ (by decide)
      ⟨⟨"S1", "owner1", "site", ["*.other.net"], 0⟩, by simp, by decide,
        "*.other.net", by simp, by decide⟩⟩

/-- A string starts with itself followed by anything. -/
theorem jsStartsWith_append (s t : String) : jsStartsWith (s ++ t) s = true := by
  unfold jsStartsWith
  rw [strDataAppend]
  exact isPrefixOf_append_self s.data t.data

/-- `renderSegs` distributes over append of nonempty segment lists. -/
theorem renderSegs_append {l m : List String} (hl : l ≠ []) (hm : m ≠ []) :
    renderSegs (l ++ m) = renderSegs l ++ "/" ++ renderSegs m := by
  induction l with
  | nil => exact absurd rfl hl
  | cons x xs ih =>
    cases xs with
    | nil =>
      cases m with
      | nil => exact absurd rfl hm
      | cons y r => rfl
    | cons y ys =>
      have hrec := ih (by simp)
      show x ++ "/" ++ renderSegs (y :: ys ++ m) =
        (x ++ "/" ++ renderSegs (y :: ys)) ++ "/" ++ renderSegs m
      rw [hrec]
      simp only [strAppendAssoc]

/-- Resolving the relative path `a/b/../c` appends `a` then `c`. -/
theorem resolveRel_abc (root : List String) :
    resolveRel root "a/b/../c" = root ++ ["a", "c"] := by
  unfold resolveRel
  rw [show jsSplit "a/b/../c" '/' = ["a", "b", "..", "c"] from by decide]
  simp only [List.foldl_cons, List.foldl_nil]
  have h1 : ∀ acc : List String, resolveStep acc "a" = acc ++ ["a"] :=
    fun acc => by simp [resolveStep]
  have h2 : ∀ acc : List String, resolveStep acc "b" = acc ++ ["b"] :=
    fun acc => by simp [resolveStep]
  have h3 : ∀ acc : List String, resolveStep acc ".." = acc.dropLast :=
    fun acc => by simp [resolveStep]
  have h4 : ∀ acc : List String, resolveStep acc "c" = acc ++ ["c"] :=
    fun acc => by simp [resolveStep]
  rw [h1, h2, h3, h4]
  simp

/-- The claim's notion of "descendant of the root" on path strings:
the target is the root itself or lies strictly below it. -/
def isDescendantStr (rootStr target : String) : Bool :=
  decide (target = rootStr) || jsStartsWith target (rootStr ++ "/")

/-- C1 counterexample: with space root `/srv/s1`, the request path
`../s1x` canonicalizes to `/srv/s1x`, which is not a descendant of the
root, yet `safeResolve` accepts it (the guard is a plain string-prefix
test), contradicting the claim that every non-descendant fails. -/
theorem c1_counterexample :
    safeResolve ["srv", "s1"] "../s1x" = .ok "/srv/s1x" ∧
    isDescendantStr (render ["srv", "s1"]) "/srv/s1x" = false := by
  decide

/-- C1 (amended): `safeResolve` normalizes separators, strips leading
slashes, joins onto the root and canonicalizes, and accepts exactly the
canonical results that have the root's string form as a prefix (rather
than exactly the descendants of the root); `safeResolve(root,
"a/b/../c")` still resolves to `root/a/c` for every nonempty root, and
`safeResolve(root, "../../etc/passwd")` still fails for a
representative root `/data/spaces/s1`. -/
theorem c1_theorem :
    (∀ root p t, safeResolve root p = .ok t ↔
      (t = render (resolveRel root (normalizePath p)) ∧
        jsStartsWith t (render root) = true)) ∧
    (∀ root : List String, root ≠ [] →
      safeResolve root "a/b/../c" = .ok (render root ++ "/a/c")) ∧
    safeResolve ["data", "spaces", "s1"] "../../etc/passwd" = .error "非法路径" := by
  refine ⟨?_, ?_, by decide⟩
  · intro root p t
    simp only [safeResolve]
    split
    · rename_i h
      constructor
      · intro h2
        injection h2 with h3
        exact ⟨h3.symm, h3 ▸ h⟩
      · rintro ⟨h2, -⟩
        rw [h2]
    · rename_i h
      constructor
      · intro h2
        cases h2
      · rintro ⟨h2, h3⟩
        subst h2
        exact absurd h3 h
  · intro root hroot
    have htarget : render (resolveRel root (normalizePath "a/b/../c")) =
        render root ++ "/a/c" := by
      rw [show normalizePath "a/b/../c" = "a/b/../c" from by decide, resolveRel_abc]
      unfold render
      rw [renderSegs_append hroot (by simp)]
      rw [show renderSegs ["a", "c"] = "a/c" from by decide]
      simp only [strAppendAssoc]
      rw [show ("/" : String) ++ "a/c" = "/a/c" from by decide]
    simp only [safeResolve, htarget, jsStartsWith_append, if_true]

/-- C1 witness: the amended theorem applied at concrete roots. -/
theorem c1_witness :
    safeResolve ["r"] "x" = .ok "/r/x" ∧
    safeResolve ["r"] "a/b/../c" = .ok (render ["r"] ++ "/a/c") :=
  ⟨(c1_theorem.1 ["r"] "x" "/r/x").mpr ⟨by decide, by decide⟩,
   c1_theorem.2.1 ["r"] (by decide)⟩

/-- C2: evaluation of the upload flow at the claim's failing input.
With space ceiling 100, current usage 30, no pre-existing file and two
60-byte chunks, the incremental quota check fails on the second chunk
and the response is a failure, but 60 bytes remain persisted at the
target: `writtenFile` is assigned only after a fully successful stream,
so the finish handler's cleanup never fires for a mid-transfer abort,
contradicting the claim that zero bytes are persisted. -/
theorem c2_theorem :
    uploadFlow 100 1000 30 0 0 [60, 60] =
      ⟨.error "空间容量不足", some 60, none⟩ ∧
    (some 60 : Option Nat) ≠ some 0 := by
  decide

/-- C3: evaluation of the unzip usage update at the claim's failing
input. An archive holding one 10-byte file that overwrites an existing
100-byte file gives net delta −90; with recorded usage 50 the task
completes and writes −40 to the registry — the unzip completion path
lacks the `Math.max(0, …)` clamp the other update sites have, so the
recorded counter goes negative, contradicting the claim. -/
theorem c3_theorem :
    unzipTask 100 1000 ["r", "s1"] ""
      (fun p => if p = "/r/s1/a.txt" then some (.file 100) else none)
      50 50 [⟨"a.txt", .File, 10⟩] =
      ⟨.done, ["/r/s1/a.txt"], some (-40)⟩ ∧
    (-40 : Int) < 0 := by
  decide

/-- C4 counterexample: `updateTask` assigns patches with no guard on
the current status, so the archiver error handler followed by the
completion update moves a task from `failed` to `done`, contradicting
the claim that no handler sequence leaves a terminal state. -/
theorem c4_counterexample :
    (taskStep createTask (.archiveError "boom")).status = .failed ∧
    (taskStep (taskStep createTask (.archiveError "boom")) .complete).status = .done := by
  decide

/-- C4 (amended): no update issued by the zip/unzip handlers ever sets
a task's status to `running`, so a task that has reached `done` or
`failed` never returns to `running`; terminal states are not otherwise
immutable — `updateTask` applies any patch unconditionally, so a
completion update delivered after an error handler moves `failed` to
`done` (and a late error event moves `done` to `failed`). -/
theorem c4_theorem :
    (∀ (t : STask) (e : TaskEvent),
      (taskStep t e).status = .running → t.status = .running) ∧
    createTask.status = .running := by
  constructor
  · intro t e h
    cases e with
    | progressEv n => exact h
    | archiveError m => exact absurd h (by simp [taskStep, updateTask, eventPatch])
    | complete => exact absurd h (by simp [taskStep, updateTask, eventPatch])
    | catchFailed m => exact absurd h (by simp [taskStep, updateTask, eventPatch])
  · rfl

/-- C4 witness: the amended theorem applied to a progress update on the
freshly created task. -/
theorem c4_witness : createTask.status = .running :=
  c4_theorem.1 createTask (.progressEv 5) (by decide)

/-- Resolved destination of one archive entry (validation then sandbox
resolution), shared by the pre-scan and extraction loops. -/
def fileTarget (root : List String) (targetDir : String) (en : ZipEntry) :
    Except String String := do
  let ep ← ensureSafeArchivePath en.path
  safeResolve root (posixJoin targetDir ep)

/-- Destinations of a list of entries, failing on the first bad path. -/
def mapTargets (root : List String) (targetDir : String) :
    List ZipEntry → Except String (List String)
  | [] => .ok []
  | en :: rest => do
    let t ← fileTarget root targetDir en
    let ts ← mapTargets root targetDir rest
    .ok (t :: ts)

/-- Size of the regular file already present at a path, else 0. -/
def existingAt (fs : String → Option FsNode) (p : String) : Nat :=
  match fs p with
  | some (.file sz) => sz
  | _ => 0

/-- The net delta in the spec's words: the sum of the `File` entries'
uncompressed sizes minus the sizes of files already present at the
destination paths. -/
def specNetDelta (root : List String) (targetDir : String)
    (fs : String → Option FsNode) (entries : List ZipEntry) : Except String Int := do
  let files := entries.filter (fun en => en.etype == .File)
  let targets ← mapTargets root targetDir files
  .ok (((files.map (fun en => en.uncompressedSize)).sum : Int) -
       ((targets.map (existingAt fs)).sum : Int))

/-- One unfolding step of `prescan` on a cons cell. -/
theorem prescan_cons (root : List String) (targetDir : String)
    (fs : String → Option FsNode) (en : ZipEntry) (rest : List ZipEntry)
    (t0 e0 : Nat) :
    prescan root targetDir fs (en :: rest) t0 e0 =
      if en.etype ≠ .File then prescan root targetDir fs rest t0 e0
      else
        match ensureSafeArchivePath en.path with
        | .error m => .error m
        | .ok ep =>
          match safeResolve root (posixJoin targetDir ep) with
          | .error m => .error m
          | .ok target =>
            prescan root targetDir fs rest (t0 + en.uncompressedSize)
              (match fs target with
               | some (.file sz) => e0 + sz
               | _ => e0) := by
  rw [prescan.eq_def]

/-- The pre-scan loop computes exactly the gross size and existing-file
totals of the spec's net delta, relative to its accumulators. -/
theorem prescan_totals {root : List String} {targetDir : String}
    {fs : String → Option FsNode} :
    ∀ (entries : List ZipEntry) (t0 e0 t e : Nat),
      prescan root targetDir fs entries t0 e0 = .ok (t, e) →
      ∃ targets,
        mapTargets root targetDir (entries.filter (fun en => en.etype == .File)) =
          .ok targets ∧
        t = t0 + ((entries.filter (fun en => en.etype == .File)).map
          (fun en => en.uncompressedSize)).sum ∧
        e = e0 + (targets.map (existingAt fs)).sum := by
  intro entries
  induction entries with
  | nil =>
    intro t0 e0 t e h
    injection h with h2
    injection h2 with h3 h4
    exact ⟨[], rfl, by simp [h3.symm], by simp [h4.symm]⟩
  | cons en rest ih =>
    intro t0 e0 t e h
    rw [prescan_cons] at h
    by_cases hf : en.etype = EntryType.File
    · rw [if_neg (by simp [hf])] at h
      cases hep : ensureSafeArchivePath en.path with
      | error m => rw [hep] at h; cases h
      | ok ep =>
        rw [hep] at h
        replace h : (match safeResolve root (posixJoin targetDir ep) with
          | Except.error m => (Except.error m : Except String (Nat × Nat))
          | Except.ok target =>
            prescan root targetDir fs rest (t0 + en.uncompressedSize)
              (match fs target with
               | some (FsNode.file sz) => e0 + sz
               | _ => e0)) = Except.ok (t, e) := h
        cases htg : safeResolve root (posixJoin targetDir ep) with
        | error m => rw [htg] at h; cases h
        | ok target =>
          rw [htg] at h
          replace h : prescan root targetDir fs rest (t0 + en.uncompressedSize)
              (match fs target with
               | some (FsNode.file sz) => e0 + sz
               | _ => e0) = Except.ok (t, e) := h
          obtain ⟨targets, hmap, ht, he⟩ := ih _ _ _ _ h
          have hft : fileTarget root targetDir en = .ok target := by
            unfold fileTarget
            rw [hep, exceptOkBind, htg]
          have hfilter : (en :: rest).filter (fun en => en.etype == .File) =
              en :: rest.filter (fun en => en.etype == .File) := by
            simp [List.filter_cons, hf]
          refine ⟨target :: targets, ?_, ?_, ?_⟩
          · rw [hfilter]
            show (do
              let tg ← fileTarget root targetDir en
              let ts ← mapTargets root targetDir
                (rest.filter (fun en => en.etype == .File))
              Except.ok (tg :: ts)) = Except.ok (target :: targets)
            rw [hft, exceptOkBind, hmap, exceptOkBind]
          · rw [hfilter]
            simp only [List.map_cons, List.sum_cons]
            omega
          · rw [he]
            cases hfs : fs target with
            | none => simp [existingAt, hfs]
            | some node =>
              cases node with
              | file sz =>
                simp only [existingAt, hfs, List.map_cons, List.sum_cons]
                omega
              | dir => simp [existingAt, hfs]
    · rw [if_pos (by simp [hf])] at h
      obtain ⟨targets, hmap, ht, he⟩ := ih _ _ _ _ h
      have hfilter : (en :: rest).filter (fun en => en.etype == .File) =
          rest.filter (fun en => en.etype == .File) := by
        simp [List.filter_cons, hf]
      rw [hfilter]
      exact ⟨targets, hmap, ht, he⟩

/-- C8: the unzip task applies the quota check once, before any
extraction, on exactly the spec's net delta (gross uncompressed size of
the archive's file entries minus the sizes of files already present at
their destinations); when that check fails the task is marked failed,
nothing is written, and the recorded usage is untouched. -/
theorem c8_theorem :
    (∀ root targetDir fs entries (t e : Nat),
      prescan root targetDir fs entries 0 0 = .ok (t, e) →
      specNetDelta root targetDir fs entries = .ok ((t : Int) - (e : Int))) ∧
    (∀ maxSpace maxTotal root targetDir fs usedBytes userUsed entries
        (t e : Nat) (msg : String),
      prescan root targetDir fs entries 0 0 = .ok (t, e) →
      ensureWithinLimits maxSpace maxTotal ((t : Int) - (e : Int))
        usedBytes userUsed = .error msg →
      unzipTask maxSpace maxTotal root targetDir fs usedBytes userUsed entries =
        ⟨.failed, [], none⟩) := by
  constructor
  · intro root targetDir fs entries t e h
    obtain ⟨targets, hmap, ht, he⟩ := prescan_totals entries 0 0 t e h
    simp only [specNetDelta, hmap, exceptOkBind]
    rw [ht, he]
    simp only [zero_add, Nat.cast_list_sum, List.map_map]
    rfl
  · intro maxSpace maxTotal root targetDir fs usedBytes userUsed entries t e msg
      hpre hquota
    unfold unzipTask
    rw [hpre]
    show (match ensureWithinLimits maxSpace maxTotal ((t : Int) - (e : Int))
          usedBytes userUsed with
      | .error _ => (⟨.failed, [], none⟩ : UnzipResult)
      | .ok _ =>
        match extractEntries root targetDir entries [] with
        | (written, some _) => ⟨.failed, written, none⟩
        | (written, none) =>
          ⟨.done, written, some (usedBytes + ((t : Int) - (e : Int)))⟩) =
      ⟨.failed, [], none⟩
    rw [hquota]

/-- C8 witness: one 50-byte entry against ceiling 100 with usage 90
fails the pre-check and produces no writes and no usage update. -/
theorem c8_witness :
    specNetDelta ["r", "s1"] "" (fun _ => none) [⟨"big.bin", .File, 50⟩] =
      .ok ((50 : Int) - (0 : Int)) ∧
    unzipTask 100 1000 ["r", "s1"] "" (fun _ => none) 90 90
      [⟨"big.bin", .File, 50⟩] = ⟨.failed, [], none⟩ :=
  ⟨c8_theorem.1 ["r", "s1"] "" (fun _ => none) [⟨"big.bin", .File, 50⟩] 50 0
      (by decide),
   c8_theorem.2 100 1000 ["r", "s1"] "" (fun _ => none) 90 90
      [⟨"big.bin", .File, 50⟩] 50 0 "空间容量不足" (by decide) (by decide)⟩

/-- One unfolding step of the `resolveSpaceByHost` scan. -/
theorem resolveGo_cons (host : String) (b : DomainBinding)
    (rest : List DomainBinding) (best : Option DomainBinding) (bestScore : Int) :
    resolveGo host (b :: rest) best bestScore =
      match matchesDomain host b.domain with
      | .error m => .error m
      | .ok true =>
        if (b.domain.length : Int) > bestScore then
          resolveGo host rest (some b) (b.domain.length : Int)
        else resolveGo host rest best bestScore
      | .ok false => resolveGo host rest best bestScore := by
  rw [resolveGo.eq_def]

/-- Invariant of the best-match scan: it never fails when every binding
parses, the returned binding (when any) matches the host and carries a
maximal pattern length among the matches seen, and `none` is returned
exactly when nothing matches. -/
theorem resolveGo_spec (host : String) :
    ∀ (l : List DomainBinding) (best : Option DomainBinding),
      (∀ b ∈ l, ∃ tb, matchesDomain host b.domain = .ok tb) →
      (∀ hb, best = some hb → matchesDomain host hb.domain = .ok true) →
      ∃ r, resolveGo host l best (scoreOf best) = .ok r ∧
        (∀ hb, r = some hb → matchesDomain host hb.domain = .ok true ∧
          (best = some hb ∨ hb ∈ l)) ∧
        scoreOf best ≤ scoreOf r ∧
        (∀ b ∈ l, matchesDomain host b.domain = .ok true →
          (b.domain.length : Int) ≤ scoreOf r) ∧
        (r = none → best = none ∧
          ∀ b ∈ l, matchesDomain host b.domain = .ok false) := by
  intro l
  induction l with
  | nil =>
    intro best hm hbest
    exact ⟨best, rfl, fun hb hr => ⟨hbest hb hr, Or.inl hr⟩, le_refl _,
      fun b hb => absurd hb (List.not_mem_nil b),
      fun hr => ⟨hr, fun b hb => absurd hb (List.not_mem_nil b)⟩⟩
  | cons b rest ih =>
    intro best hm hbest
    obtain ⟨tb, htb⟩ := hm b (List.mem_cons_self b rest)
    have hstep := resolveGo_cons host b rest best (scoreOf best)
    rw [htb] at hstep
    cases tb with
    | false =>
      replace hstep : resolveGo host (b :: rest) best (scoreOf best) =
          resolveGo host rest best (scoreOf best) := hstep
      obtain ⟨r, hr, hc1, hc2, hc3, hc4⟩ :=
        ih best (fun x hx => hm x (List.mem_cons_of_mem _ hx)) hbest
      refine ⟨r, hstep.trans hr, ?_, hc2, ?_, ?_⟩
      · intro hb hrr
        obtain ⟨hmt, hor⟩ := hc1 hb hrr
        exact ⟨hmt, hor.imp id (List.mem_cons_of_mem _)⟩
      · intro x hx hmx
        rcases List.mem_cons.mp hx with heq | hx2
        · subst heq
          rw [htb] at hmx
          injection hmx with h3
          cases h3
        · exact hc3 x hx2 hmx
      · intro hrn
        obtain ⟨hbn, hall⟩ := hc4 hrn
        refine ⟨hbn, ?_⟩
        intro x hx
        rcases List.mem_cons.mp hx with heq | hx2
        · subst heq; exact htb
        · exact hall x hx2
    | true =>
      by_cases hgt : (b.domain.length : Int) > scoreOf best
      · replace hstep : resolveGo host (b :: rest) best (scoreOf best) =
            resolveGo host rest (some b) (scoreOf (some b)) := by
          rw [hstep]
          exact if_pos hgt
        obtain ⟨r, hr, hc1, hc2, hc3, hc4⟩ :=
          ih (some b) (fun x hx => hm x (List.mem_cons_of_mem _ hx))
            (fun hb h => by injection h with h2; exact h2 ▸ htb)
        have hsb : scoreOf (some b) = (b.domain.length : Int) := rfl
        refine ⟨r, hstep.trans hr, ?_, ?_, ?_, ?_⟩
        · intro hb hrr
          obtain ⟨hmt, hor⟩ := hc1 hb hrr
          refine ⟨hmt, Or.inr ?_⟩
          rcases hor with heq | hmem
          · injection heq with h2
            subst h2
            exact List.mem_cons_self _ _
          · exact List.mem_cons_of_mem _ hmem
        · have h1 : scoreOf best ≤ scoreOf (some b) := by
            rw [hsb]; omega
          exact le_trans h1 hc2
        · intro x hx hmx
          rcases List.mem_cons.mp hx with heq | hx2
          · subst heq
            rw [← hsb]
            exact hc2
          · exact hc3 x hx2 hmx
        · intro hrn
          obtain ⟨hbn, -⟩ := hc4 hrn
          exact Option.noConfusion hbn
      · replace hstep : resolveGo host (b :: rest) best (scoreOf best) =
            resolveGo host rest best (scoreOf best) := by
          rw [hstep]
          exact if_neg hgt
        obtain ⟨r, hr, hc1, hc2, hc3, hc4⟩ :=
          ih best (fun x hx => hm x (List.mem_cons_of_mem _ hx)) hbest
        refine ⟨r, hstep.trans hr, ?_, hc2, ?_, ?_⟩
        · intro hb hrr
          obtain ⟨hmt, hor⟩ := hc1 hb hrr
          exact ⟨hmt, hor.imp id (List.mem_cons_of_mem _)⟩
        · intro x hx hmx
          rcases List.mem_cons.mp hx with heq | hx2
          · subst heq
            push_neg at hgt
            exact le_trans hgt hc2
          · exact hc3 x hx2 hmx
        · intro hrn
          obtain ⟨hbn, hall⟩ := hc4 hrn
          exfalso
          subst hbn
          simp only [scoreOf] at hgt
          push_neg at hgt
          have hpos : (0 : Int) ≤ (b.domain.length : Int) := Int.natCast_nonneg _
          omega

/-- C9: on a binding snapshot whose patterns all parse,
`resolveSpaceByHost` returns a binding that matches the host per
`matchesDomain` and whose pattern length is maximal among all matching
bindings, and returns no binding exactly when no pattern matches. -/
theorem c9_theorem :
    ∀ host bindings,
      (∀ b ∈ bindings, ∃ tb, matchesDomain host b.domain = .ok tb) →
      (resolveSpaceByHost host bindings = .ok none ↔
        ∀ b ∈ bindings, matchesDomain host b.domain = .ok false) ∧
      (∀ bb, resolveSpaceByHost host bindings = .ok (some bb) →
        bb ∈ bindings ∧ matchesDomain host bb.domain = .ok true ∧
        ∀ b ∈ bindings, matchesDomain host b.domain = .ok true →
          b.domain.length ≤ bb.domain.length) := by
  intro host bindings hm
  obtain ⟨r, hr, hc1, hc2, hc3, hc4⟩ :=
    resolveGo_spec host bindings none hm (fun hb h => Option.noConfusion h)
  have hres : resolveSpaceByHost host bindings = .ok r := hr
  constructor
  · constructor
    · intro h
      have h2 := hres.symm.trans h
      injection h2 with h3
      exact (hc4 h3).2
    · intro hall
      cases hcr : r with
      | none => rw [hres, hcr]
      | some bb =>
        obtain ⟨hmt, hor⟩ := hc1 bb hcr
        rcases hor with heq | hmem
        · exact Option.noConfusion heq
        · rw [hall bb hmem] at hmt
          injection hmt with h3
          cases h3
  · intro bb hsome
    have h2 : r = some bb := by
      have h3 := hres.symm.trans hsome
      injection h3
    obtain ⟨hmt, hor⟩ := hc1 bb h2
    rcases hor with heq | hmem
    · exact Option.noConfusion heq
    · refine ⟨hmem, hmt, ?_⟩
      intro x hx hmx
      have h4 := hc3 x hx hmx
      rw [h2] at h4
      simp only [scoreOf] at h4
      exact_mod_cast h4

/-- C9 witness: the theorem applied to a one-binding snapshot. -/
theorem c9_witness :
    (⟨"s1", "o", "*.example.com"⟩ : DomainBinding) ∈
      [(⟨"s1", "o", "*.example.com"⟩ : DomainBinding)] ∧
    matchesDomain "a.example.com" "*.example.com" = .ok true ∧
    ∀ b ∈ [(⟨"s1", "o", "*.example.com"⟩ : DomainBinding)],
      matchesDomain "a.example.com" b.domain = .ok true →
      b.domain.length ≤ "*.example.com".length :=
  ( c9_theorem "a.example.com" [⟨"s1", "o", "*.example.com"⟩]
    (fun b hb => by
      rcases List.mem_singleton.mp hb with rfl
      exact ⟨true, by decide⟩)).2
    ⟨"s1", "o", "*.example.com"⟩ (by decide)

/-- C10: every successful registry-mutating route that changes domain
visibility (space create, space delete, domain bind, domain unbind)
leaves the binding cache equal to the bindings derived from the updated
registry — each route calls `refreshBindings` after its registry write
and before completing, so public-host resolution reflects the change
immediately rather than after the cache TTL. -/
theorem c10_theorem :
    (∀ (maxSpaces : Nat) (owner rawName newId : String) (w w' : World),
      createSpaceRoute maxSpaces owner rawName newId w = .ok w' →
      w'.cache = some (deriveBindings w'.registry)) ∧
    (∀ (owner spaceId : String) (w w' : World),
      deleteSpaceRoute owner spaceId w = .ok w' →
      w'.cache = some (deriveBindings w'.registry)) ∧
    (∀ (reserved : List String) (owner spaceId input : String) (w w' : World),
      bindDomainRoute reserved owner spaceId input w = .ok w' →
      w'.cache = some (deriveBindings w'.registry)) ∧
    (∀ (reserved : List String) (owner spaceId input : String) (w w' : World),
      unbindDomainRoute reserved owner spaceId input w = .ok w' →
      w'.cache = some (deriveBindings w'.registry)) := by
  have key : ∀ w2 : World,
      (refreshBindings w2).cache = some (deriveBindings (refreshBindings w2).registry) :=
    fun w2 => rfl
  refine ⟨?_, ?_, ?_, ?_⟩
  · intro maxSpaces owner rawName newId w w' h
    simp only [createSpaceRoute] at h
    cases hn : ensureValidSpaceName rawName with
    | error m => rw [hn] at h; cases h
    | ok name =>
      rw [hn, exceptOkBind] at h
      split at h
      · cases h
      · injection h with h2
        rw [← h2]
        exact key _
  · intro owner spaceId w w' h
    simp only [deleteSpaceRoute] at h
    cases hf : w.registry.find? (fun s => s.id = spaceId && s.owner = owner) with
    | none => rw [hf] at h; cases h
    | some space =>
      rw [hf] at h
      injection h with h2
      rw [← h2]
      exact key _
  · intro reserved owner spaceId input w w' h
    simp only [bindDomainRoute] at h
    cases hf : w.registry.find? (fun s => s.id = spaceId && s.owner = owner) with
    | none => rw [hf] at h; cases h
    | some space =>
      rw [hf] at h
      replace h : (do
          let updated ← bindDomain reserved w.registry spaceId space.domains input
          Except.ok (refreshBindings
            { w with registry := setDomains w.registry spaceId updated })) =
          Except.ok w' := h
      cases hb : bindDomain reserved w.registry spaceId space.domains input with
      | error m => rw [hb] at h; cases h
      | ok updated =>
        rw [hb, exceptOkBind] at h
        injection h with h2
        rw [← h2]
        exact key _
  · intro reserved owner spaceId input w w' h
    simp only [unbindDomainRoute] at h
    cases hf : w.registry.find? (fun s => s.id = spaceId && s.owner = owner) with
    | none => rw [hf] at h; cases h
    | some space =>
      rw [hf] at h
      replace h : (do
          let parsed ← parseDomain input
          checkReserved parsed.domain reserved
          Except.ok (refreshBindings { w with registry := setDomains w.registry spaceId (space.domains.filter (fun d => d ≠ parsed.domain)) })) = Except.ok w' := h
      cases hp : parseDomain input with
      | error m => rw [hp] at h; cases h
      | ok parsed =>
        rw [hp, exceptOkBind] at h
        cases hcr : checkReserved parsed.domain reserved with
        | error m => rw [hcr] at h; cases h
        | ok u =>
          cases u
          rw [hcr, exceptOkBind] at h
          injection h with h2
          rw [← h2]
          exact key _

/-- C10 witness: the four conjuncts applied to concrete worlds (create
a space, delete it, bind `a.test`, unbind it). -/
theorem c10_witness :
    ((⟨[⟨"id1", "o", "site", [], 0⟩], some []⟩ : World).cache =
      some (deriveBindings (⟨[⟨"id1", "o", "site", [], 0⟩], some []⟩ : World).registry)) ∧
    ((⟨[], some []⟩ : World).cache =
      some (deriveBindings (⟨[], some []⟩ : World).registry)) ∧
    ((⟨[⟨"id1", "o", "site", ["a.test"], 0⟩], some [⟨"id1", "o", "a.test"⟩]⟩ : World).cache =
      some (deriveBindings
        (⟨[⟨"id1", "o", "site", ["a.test"], 0⟩], some [⟨"id1", "o", "a.test"⟩]⟩ : World).registry)) ∧
    ((⟨[⟨"id1", "o", "site", [], 0⟩], some []⟩ : World).cache =
      some (deriveBindings (⟨[⟨"id1", "o", "site", [], 0⟩], some []⟩ : World).registry)) :=
  ⟨c10_theorem.1 5 "o" "site" "id1" ⟨[], none⟩ _ (by decide),
   c10_theorem.2.1 "o" "id1" ⟨[⟨"id1", "o", "site", [], 0⟩], some []⟩ _ (by decide),
   c10_theorem.2.2.1 [] "o" "id1" "a.test"
     ⟨[⟨"id1", "o", "site", [], 0⟩], some []⟩ _ (by decide),
   c10_theorem.2.2.2 [] "o" "id1" "a.test"
     ⟨[⟨"id1", "o", "site", ["a.test"], 0⟩], some [⟨"id1", "o", "a.test"⟩]⟩ _ (by decide)⟩
